import Mathlib

/- A shallow embedding of the text-scanning and parsing core of the
   python-docblockr repository (src/parsers/parser.py), together with
   theorems settling the specification claims against it.

   Modelling conventions:
   - Python strings are `String` (equivalently their `List Char` data);
   - Python `None` is the `none` of an `Option`;
   - a raised exception is the outer `none` (or `.error`) layer of the
     return type, as noted at each definition;
   - the editor buffer (sublime.View) is a `List String` of physical
     lines, addressed by character offsets into the newline-joined text;
   - `view.indentation_level` is an external service and is modelled as
     an abstract function parameter. -/

namespace DocBlockr

/-- Python whitespace (the `\s` class and `str.strip`), ASCII range. -/
def wsB (c : Char) : Bool :=
  c = ' ' || c = '\t' || c = '\n' || c = '\r' || c = '\x0b' || c = '\x0c'

/-- The single-quote character (written via its code point). -/
def squote : Char := Char.ofNat 39

/-- The opening-brace character (written via its code point). -/
def obrace : Char := Char.ofNat 123

/-- The closing-brace character (written via its code point). -/
def cbrace : Char := Char.ofNat 125

/-- `str.lstrip()` on a character list. -/
def trimLeftL (l : List Char) : List Char := l.dropWhile wsB

/-- `str.rstrip()` on a character list. -/
def trimRightL (l : List Char) : List Char := (l.reverse.dropWhile wsB).reverse

/-- `str.strip()` on a character list. -/
def trimL (l : List Char) : List Char := trimRightL (trimLeftL l)

/-- `str.strip()` on a `String`. -/
def trimS (s : String) : String := String.mk (trimL s.data)

/-- Does `l` begin with the literal `p`? (anchored regex literal). -/
def startsWithL (p l : List Char) : Bool := l.take p.length = p

/-- Does `l` end with the literal `p`? -/
def endsWithL (p l : List Char) : Bool := startsWithL p.reverse l.reverse

/-- Strip the literal `p` off the front of `l`, if present. -/
def stripLit (p l : List Char) : Option (List Char) :=
  if startsWithL p l then some (l.drop p.length) else none

/-- Match the regex fragment `\s+`: at least one whitespace character,
    consumed greedily; returns the remainder. -/
def wsPlus : List Char → Option (List Char)
  | c :: rest => if wsB c then some (rest.dropWhile wsB) else none
  | [] => none

/-- The regex class `\w` (ASCII): letters, digits, underscore. -/
def wordB (c : Char) : Bool :=
  ('a' ≤ c && c ≤ 'z') || ('A' ≤ c && c ≤ 'Z') || ('0' ≤ c && c ≤ '9') || c = '_'

/-- A decimal digit. -/
def digitB (c : Char) : Bool := '0' ≤ c && c ≤ '9'

/-- The class `[\w\.]`: a word character or a dot. -/
def wordDotB (c : Char) : Bool := wordB c || c = '.'

/-- Python `s.split(c)` on a character list: split at every occurrence. -/
def splitOnCharL (c : Char) : List Char → List (List Char)
  | [] => [[]]
  | x :: rest =>
    if x = c then [] :: splitOnCharL c rest
    else
      match splitOnCharL c rest with
      | h :: t => (x :: h) :: t
      | [] => [[x]]

/-- The lines of a Python string: `s.split("\n")`. -/
def splitLinesL (l : List Char) : List (List Char) := splitOnCharL '\n' l

/-- Index of the last occurrence of `c` in the list, if any. -/
def lastIdxOf (c : Char) : List Char → Option Nat
  | [] => none
  | x :: xs =>
    match lastIdxOf c xs with
    | some j => some (j + 1)
    | none => if x = c then some 0 else none

/- ### split_by_commas (parser.py lines 10-71) -/

/-- The closer matching an opener, from `open_quotes`/`close_quotes`
    (`"'<({[` paired with `"'>)}]`). -/
def closingFor (c : Char) : Option Char :=
  if c = '"' then some '"'
  else if c = squote then some squote
  else if c = '<' then some '>'
  else if c = '(' then some ')'
  else if c = obrace then some cbrace
  else if c = '[' then some ']'
  else none

/-- Loop state of `split_by_commas`. -/
structure SplitSt where
  out : List (List Char)
  current : List Char
  matchingQuote : Option Char
  insideQuotes : Bool
  isNextLiteral : Bool
deriving DecidableEq

/-- One character step of the `split_by_commas` loop. -/
def splitStep (st : SplitSt) (char : Char) : SplitSt :=
  if st.isNextLiteral then
    { st with current := st.current ++ [char], isNextLiteral := false }
  else if st.insideQuotes then
    if char = '\\' then { st with isNextLiteral := true }
    else
      if some char = st.matchingQuote then
        { st with current := st.current ++ [char], insideQuotes := false }
      else
        { st with current := st.current ++ [char] }
  else
    if char = ',' then
      if trimL st.current ≠ [] then
        { st with out := st.out ++ [trimL st.current], current := [] }
      else
        { st with current := [] }
    else
      match closingFor char with
      | some q =>
        { st with current := st.current ++ [char], matchingQuote := some q,
                  insideQuotes := true }
      | none => { st with current := st.current ++ [char] }

/-- `split_by_commas` on a character list. -/
def splitByCommasL (s : List Char) : List (List Char) :=
  if s = [] then []
  else
    let st := s.foldl splitStep ⟨[], [], none, false, false⟩
    if trimL st.current ≠ [] then st.out ++ [trimL st.current] else st.out

/-- `split_by_commas`: split a string by commas that are not enclosed in
    quotes or brackets; tokens are stripped, empty tokens dropped. -/
def split_by_commas (s : String) : List String :=
  (splitByCommasL s.data).map String.mk

/- ### is_start_keyword (parser.py lines 74-87) -/

/-- `is_start_keyword`: does the line match one of the anchored patterns
    `^def\s+`, `^class\s+`, `^async\s+def\s+`? -/
def is_start_keyword (line : String) : Bool :=
  let l := line.data
  (match stripLit "def".data l with
   | some r => (wsPlus r).isSome
   | none => false) ||
  (match stripLit "class".data l with
   | some r => (wsPlus r).isSome
   | none => false) ||
  (match stripLit "async".data l with
   | some r =>
     match wsPlus r with
     | some r2 =>
       match stripLit "def".data r2 with
       | some r3 => (wsPlus r3).isSome
       | none => false
     | none => false
   | none => false)

/- ### The buffer model (sublime.View): a list of physical lines,
   addressed by character offsets into the newline-joined text. -/

/-- Total number of characters of the buffer (lines joined by `\n`),
    i.e. `view.size()`. -/
def bufSize : List String → Int
  | [] => 0
  | s :: rest =>
    match rest with
    | [] => (s.length : Int)
    | _ :: _ => (s.length : Int) + 1 + bufSize rest

/-- Index of the physical line containing offset `p` (`view.line(p)`),
    clamped to the buffer; the offset of a line's terminating newline
    belongs to that line. -/
def lineIdxAt : List String → Int → Nat
  | [], _ => 0
  | s :: rest, p =>
    match rest with
    | [] => 0
    | _ :: _ =>
      if p ≤ (s.length : Int) then 0
      else lineIdxAt rest (p - (s.length : Int) - 1) + 1

/-- Offset of the first character of line `i` (`view.line(p).begin()`). -/
def lineBegin : List String → Nat → Int
  | _, 0 => 0
  | [], _ + 1 => 0
  | s :: rest, i + 1 => (s.length : Int) + 1 + lineBegin rest i

/-- Text of line `i` (`view.substr(view.line(p))`, without the newline). -/
def lineText (b : List String) (i : Nat) : String := (b.get? i).getD ""

/-- Offset just past the last character of line `i`
    (`view.line(p).end()`). -/
def lineEnd (b : List String) (i : Nat) : Int :=
  lineBegin b i + ((lineText b i).length : Int)

/- ### read_next_line (parser.py lines 90-135) -/

/-- The reverse walk of `read_next_line(view, position, reverse=True)`:
    the indices of the lines yielded, in yield order, starting from the
    line with index `cur`.  Each step moves to
    `next_line = current_line.begin() - 1`; before the bounds check the
    line at `next_line` is tested with `is_start_keyword` (on its
    stripped text) and, when it matches, the walk stops after yielding
    that line.  The walk stops without a yield when `next_line` falls
    outside `(0, view.size())`.  The fuel argument only bounds the
    recursion; `b.length` steps are never exhausted since the current
    line index strictly decreases. -/
def backWalkAux (b : List String) : Nat → Nat → List Nat
  | 0, _ => []
  | fuel + 1, cur =>
    let nl : Int := lineBegin b cur - 1
    if 0 < nl ∧ nl < bufSize b then
      let prev := lineIdxAt b nl
      if is_start_keyword (trimS (lineText b prev)) then [prev]
      else prev :: backWalkAux b fuel prev
    else []

/-- The lines yielded by the reverse walk from line index `i`. -/
def backWalkFrom (b : List String) (i : Nat) : List Nat :=
  backWalkAux b b.length i

/-- The forward walk of `read_next_line(view, position)`: indices of the
    lines yielded walking down from line `cur`, stopping when
    `next_line = current_line.end() + 1` leaves `(0, view.size())`. -/
def fwdWalkAux (b : List String) : Nat → Nat → List Nat
  | 0, _ => []
  | fuel + 1, cur =>
    let nl : Int := lineEnd b cur + 1
    if 0 < nl ∧ nl < bufSize b then
      let nxt := lineIdxAt b nl
      nxt :: fwdWalkAux b fuel nxt
    else []

/-- The lines yielded by the forward walk from line index `i`. -/
def fwdWalkFrom (b : List String) (i : Nat) : List Nat :=
  fwdWalkAux b b.length i

/- ### PythonParser.get_definition (parser.py lines 249-286) -/

/-- `get_definition`: reset the position to the beginning of its line; at
    buffer offset 0 return `(None, None)`; otherwise prepend
    `stripped_line + " "` for every line yielded by the reverse walk and
    count the lines. -/
def get_definition (b : List String) (p : Int) : Option String × Option Nat :=
  let reset := lineBegin b (lineIdxAt b p)
  if reset = 0 then (none, none)
  else
    let idxs := backWalkFrom b (lineIdxAt b p)
    let r := idxs.foldl
      (fun (acc : String × Nat) i => (trimS (lineText b i) ++ " " ++ acc.1, acc.2 + 1))
      ("", 0)
    (some r.1, some r.2)

/- ### is_numeric (parser.py lines 138-151): does Python `float(val)`
   succeed?  Python's float grammar: optional surrounding whitespace,
   optional sign, then `inf`/`infinity`/`nan` (case-insensitive) or a
   decimal numeral `digits [. digits] [e [sign] digits]` with
   underscores allowed between digits. -/

/-- Consume `("_"? digit)*` greedily after an initial digit. -/
def munchDigits : List Char → List Char
  | [] => []
  | c :: rest =>
    if c = '_' then
      match rest with
      | c2 :: rest2 => if digitB c2 then munchDigits rest2 else c :: rest
      | [] => [c]
    else if digitB c then munchDigits rest
    else c :: rest

/-- Parse a `digitpart` (one digit, then `("_"? digit)*`); return the
    remainder on success. -/
def parseDigitpart : List Char → Option (List Char)
  | c :: rest => if digitB c then some (munchDigits rest) else none
  | [] => none

/-- Parse the mantissa: `digitpart [. [digitpart]]` or `. digitpart`. -/
def parseMantissa (l : List Char) : Option (List Char) :=
  match parseDigitpart l with
  | some rest =>
    match rest with
    | '.' :: rest2 =>
      match parseDigitpart rest2 with
      | some rest3 => some rest3
      | none => some rest2
    | _ => some rest
  | none =>
    match l with
    | '.' :: rest => parseDigitpart rest
    | _ => none

/-- Parse an optional exponent `(e|E) [+|-] digitpart`. -/
def parseExponent (l : List Char) : Option (List Char) :=
  match l with
  | c :: rest =>
    if c = 'e' ∨ c = 'E' then
      match rest with
      | s :: rest2 =>
        if s = '+' ∨ s = '-' then parseDigitpart rest2 else parseDigitpart rest
      | [] => none
    else some l
  | [] => some []

/-- `inf`, `infinity` or `nan`, case-insensitively. -/
def namedFloat (l : List Char) : Bool :=
  let low := l.map Char.toLower
  low = "inf".data || low = "infinity".data || low = "nan".data

/-- `is_numeric(val)`: `float(val)` succeeds. -/
def is_numeric (val : String) : Bool :=
  let l := trimL val.data
  let l2 :=
    match l with
    | c :: rest => if c = '+' ∨ c = '-' then rest else l
    | [] => l
  if namedFloat l2 then true
  else
    match parseMantissa l2 with
    | some rest =>
      match parseExponent rest with
      | some [] => true
      | _ => false
    | none => false

/- ### guess_type_from_name (parser.py lines 154-169) -/

/-- `guess_type_from_name`: `bool` for `^(?:is|has)[A-Z_]`, `function`
    for exactly one of `cb`, `callback`, `done`, `next`, `fn`. -/
def guess_type_from_name (name : String) : Option String :=
  let l := name.data
  let upperOrUnderscore : Char → Bool := fun c => ('A' ≤ c && c ≤ 'Z') || c = '_'
  let isHasMatch :=
    (match stripLit "is".data l with
     | some (c :: _) => upperOrUnderscore c
     | _ => false) ||
    (match stripLit "has".data l with
     | some (c :: _) => upperOrUnderscore c
     | _ => false)
  if isHasMatch then some "bool"
  else if name = "cb" ∨ name = "callback" ∨ name = "done" ∨ name = "next" ∨ name = "fn" then
    some "function"
  else none

/- ### guess_type_from_value (parser.py lines 172-206) -/

/-- The lookup in `char_map` of the value's first character
    (`" → str, ' → str, [ → list, { → dict, ( → tuple`). -/
def charMapGet : Option Char → Option String
  | some c =>
    if c = '"' ∨ c = squote then some "str"
    else if c = '[' then some "list"
    else if c = obrace then some "dict"
    else if c = '(' then some "tuple"
    else none
  | none => none

/-- `value[:2]` is one of `r'`, `r"`, `R'`, `R"`. -/
def regexpPre (v : String) : Bool :=
  let p := v.data.take 2
  p = ['r', squote] || p = ['r', '"'] || p = ['R', squote] || p = ['R', '"']

/-- `value[:2]` is one of `u'`, `u"`, `U'`, `U"`. -/
def unicodePre (v : String) : Bool :=
  let p := v.data.take 2
  p = ['u', squote] || p = ['u', '"'] || p = ['U', squote] || p = ['U', '"']

/-- `value[:7] == "lambda "`. -/
def lambdaPre (v : String) : Bool := v.data.take 7 = "lambda ".data

/-- `guess_type_from_value`: `None` for absent input; else the first of
    the checks `number`, first-character map, `bool`, `regexp`,
    `unicode`, `function` that fires, in this order; else `None`. -/
def guess_type_from_value (value : Option String) : Option String :=
  match value with
  | none => none
  | some v =>
    if is_numeric v then some "number"
    else
      match charMapGet v.data.head? with
      | some t => some t
      | none =>
        if v = "True" ∨ v = "False" then some "bool"
        else if regexpPre v then some "regexp"
        else if unicodePre v then some "unicode"
        else if lambdaPre v then some "function"
        else none

/- ### The type-hints dictionary.  A Python dict with string keys and
   values; later writes shadow earlier ones (new bindings are prepended
   and lookup takes the first hit). -/

/-- A Python string-keyed dictionary. -/
def Dict := List (String × String)

/-- Dictionary lookup (`d.get(k)` / `d[k]`). -/
def dictGet (d : Dict) (k : String) : Option String :=
  (List.find? (fun kv => kv.1 == k) d).map (fun kv => kv.2)

/-- Dictionary lookup with a default (`d.get(k, v0)`). -/
def dictGetD (d : Dict) (k v0 : String) : String := (dictGet d k).getD v0

/-- Dictionary write (`d[k] = v`). -/
def dictSet (d : Dict) (k v : String) : Dict := (k, v) :: d

/-- `dict(pairs)`: build a dict from a pair list, later pairs winning. -/
def buildDict (ps : List (String × String)) : Dict :=
  ps.foldl (fun d kv => dictSet d kv.1 kv.2) []

/-- Python truthiness chain `a or b` over optional strings (an empty
    string is falsy). -/
def pyOrS (a b : Option String) : Option String :=
  match a with
  | some s => if s = "" then b else some s
  | none => b

/- ### PythonParser.process_variable (parser.py lines 441-483) -/

/-- A `ParsedAttribute`: the `params` dict built by `process_variable`
    (`name` and `type` always present, `default` only when the variable
    carried an `=`). -/
structure ParsedAttr where
  name : String
  type : Option String
  default : Option String
deriving DecidableEq

/-- Everything before the first occurrence of `c`, and everything after
    it (the whole list and `[]` when `c` does not occur). -/
def splitFirst (c : Char) (l : List Char) : List Char × List Char :=
  (l.takeWhile (fun x => x ≠ c), (l.dropWhile (fun x => x ≠ c)).drop 1)

/-- Index of the first occurrence of `c` (`str.find`, `-1` as `none`). -/
def firstIdxOf (c : Char) (l : List Char) : Option Nat :=
  if (l.takeWhile (fun x => x ≠ c)).length = l.length then none
  else some (l.takeWhile (fun x => x ≠ c)).length

/-- `process_variable(variable, hints)`: split off a default at the
    first `=` (second piece of `split("=")`), split off a type hint at
    an interior `:` (recording it in `hints`), unwrap `Optional[T]` when
    a default is present, and resolve the type by the precedence
    explicit hint > value guess > name guess.  Returns the attribute and
    the (mutated) hints dict. -/
def process_variable (var : String) (hints : Dict) : ParsedAttr × Dict :=
  let l0 := var.data
  let withDefault :=
    if l0.contains '=' then
      let pieces := splitOnCharL '=' l0
      (String.mk (trimL (pieces.headD [])), some (String.mk (trimL ((pieces.get? 1).getD []))))
    else (var, none)
  let v1 := withDefault.1
  let dflt := withDefault.2
  let colonSplit :=
    match firstIdxOf ':' v1.data with
    | some j =>
      if 0 < j ∧ j + 1 < v1.data.length then
        let p := splitFirst ':' v1.data
        let p2 := splitFirst ':' p.2
        let v2 := String.mk (trimL p.1)
        (v2, dictSet hints v2 (String.mk (trimL p2.1)))
      else (v1, hints)
    | none => (v1, hints)
  let v2 := colonSplit.1
  let hints2 := colonSplit.2
  let hints3 :=
    match dflt, dictGet hints2 v2 with
    | some d, some h =>
      if d ≠ "" ∧ h ≠ "" ∧ startsWithL "Optional[".data h.data ∧
          endsWithL "]".data h.data ∧ 10 < h.data.length ∧
          ¬ (h.data.drop 9).dropLast.contains '\n' then
        dictSet hints2 v2 (String.mk ((h.data.drop 9).dropLast))
      else hints2
    | _, _ => hints2
  let ty := pyOrS (some (dictGetD hints3 v2 ""))
    (pyOrS (guess_type_from_value dflt) (guess_type_from_name v2))
  (⟨v2, ty, dflt⟩, hints3)

/- ### PythonParser.parse_variables (parser.py lines 485-509).
   The regex `^\s*((?:(?!from |import |async |def |class |@).)+$)` with
   MULTILINE is scanned with findall.  A line whose first non-blank
   suffix passes the negative lookahead at every position yields that
   suffix as a group; a maximal run of whitespace-only lines yields one
   single-whitespace group (the last character of the run's last
   non-empty line) unless the run is immediately followed by such a
   matching line, in which case the greedy `\s*` absorbs the run into
   that line's match. -/

/-- Does the text starting here violate the negative lookahead
    `(?!from |import |async |def |class |@)`? -/
def badStart (l : List Char) : Bool :=
  startsWithL "from ".data l || startsWithL "import ".data l ||
  startsWithL "async ".data l || startsWithL "def ".data l ||
  startsWithL "class ".data l || startsWithL "@".data l

/-- Every suffix position of `l` passes the lookahead. -/
def allPosOk : List Char → Bool
  | [] => true
  | c :: rest => !badStart (c :: rest) && allPosOk rest

/-- The groups found by the `parse_variables` regex over the lines of
    the block, in order.  `pending` carries the would-be group of an
    ongoing whitespace-only run. -/
def varMatches : Option Char → List (List Char) → List (List Char)
  | pending, [] =>
    match pending with
    | some c => [[c]]
    | none => []
  | pending, l :: rest =>
    let t := l.dropWhile wsB
    if t ≠ [] then
      if allPosOk t then t :: varMatches none rest
      else
        match pending with
        | some c => [c] :: varMatches none rest
        | none => varMatches none rest
    else
      varMatches (match l.getLast? with | some c => some c | none => pending) rest

/-- `parse_variables(contents)`: `None` when the regex finds nothing,
    else each matched line fed to `process_variable` with a fresh empty
    hints dict. -/
def parse_variables (contents : String) : Option (List ParsedAttr) :=
  let ms := varMatches none (splitLinesL contents.data)
  if ms = [] then none
  else some (ms.map (fun m => (process_variable (String.mk m) []).1))

/- ### PythonParser.process_module (parser.py lines 511-535) -/

/-- The heterogeneous values of a ParseResult entry. -/
inductive FieldVal where
  | strs (l : List String)
  | args (arguments keyword_arguments : List ParsedAttr)
  | ret (t : Option String)
  | attrs (l : List ParsedAttr)
deriving DecidableEq

/-- `process_module(line, contents)`: `None` unless `line` is `None`;
    else the (possibly empty) entry list with the parsed module
    variables under `attributes`. -/
def process_module (line : Option String) (contents : String) :
    Option (List (String × FieldVal)) :=
  match line with
  | some _ => none
  | none =>
    match parse_variables contents with
    | some vs => some [("attributes", FieldVal.attrs vs)]
    | none => some []

/- ### PythonParser.parse_extends (parser.py lines 537-559) -/

/-- For `(.*)\):\s*$` with a greedy group: the content before the last
    `)` that is followed by `:` and then only whitespace up to the end. -/
def extGroupScan : List Char → Option (List Char)
  | [] => none
  | c :: rest =>
    match extGroupScan rest with
    | some g => some (c :: g)
    | none =>
      if c = ')' then
        match rest with
        | x :: ws => if x = ':' ∧ ws.all wsB then some [] else none
        | [] => none
      else none

/-- The captured base-class list of `^\s*class \w*\((.*)\):\s*$`. -/
def classExtendsGroup (line : String) : Option (List Char) :=
  let l := trimLeftL line.data
  match stripLit "class ".data l with
  | none => none
  | some r =>
    let w := r.takeWhile wordB
    match r.drop w.length with
    | '(' :: t => extGroupScan t
    | _ => none

/-- `parse_extends(line)`: the comma-split base classes with a literal
    `object` dropped, or `None` when the class-header regex fails. -/
def parse_extends (line : String) : Option (List String) :=
  match classExtendsGroup line with
  | none => none
  | some g => some ((split_by_commas (String.mk g)).filter (fun e => e ≠ "object"))

/- ### PythonParser.process_class (parser.py lines 561-590) -/

/-- `re.match(r"^\s*(class )", line)`. -/
def classGuard (line : String) : Bool :=
  startsWithL "class ".data (trimLeftL line.data)

/-- `process_class(line, contents)`: `None` unless the line starts a
    class; else the entry list with `extends` and `attributes` when
    present. -/
def process_class (line : String) (contents : String) :
    Option (List (String × FieldVal)) :=
  if classGuard line then
    let e1 :=
      match parse_extends line with
      | some ex => [("extends", FieldVal.strs ex)]
      | none => []
    let e2 :=
      match parse_variables contents with
      | some vs => [("attributes", FieldVal.attrs vs)]
      | none => []
    some (e1 ++ e2)
  else none

/- ### PythonParser.parse_decorators (parser.py lines 592-624) -/

/-- The decorator-name class `[a-zA-Z0-9_\.]`. -/
def decoChar (c : Char) : Bool := wordB c || c = '.'

/-- The group of `^\s*@([a-zA-Z0-9_\.]*)(\(.*\)|$)` on one line: the
    name after `@`, accepted when the rest is empty or is `(` with some
    later `)`. -/
def decoMatch (l : List Char) : Option String :=
  match l.dropWhile wsB with
  | '@' :: r =>
    let name := r.takeWhile decoChar
    match r.drop name.length with
    | [] => some (String.mk name)
    | '(' :: t => if t.contains ')' then some (String.mk name) else none
    | _ => none
  | _ => none

/-- The line loop of `parse_decorators`: stop at the definition line,
    collect decorator names not in the excluded list, in order. -/
def decoLoop (definition : String) : List (List Char) → List String
  | [] => []
  | l :: rest =>
    if String.mk l = definition then []
    else
      match decoMatch l with
      | some d =>
        if d = "classmethod" ∨ d = "staticmethod" ∨ d = "property" then
          decoLoop definition rest
        else d :: decoLoop definition rest
      | none => decoLoop definition rest

/-- `parse_decorators(definition, content)`: scan the content's lines,
    stopping at the definition line itself; collect decorator names not
    in the excluded list, duplicates kept. -/
def parse_decorators (definition : String) (content : String) : List String :=
  decoLoop definition (splitLinesL content.data)

/- ### PythonParser.parse_arguments (parser.py lines 626-673) -/

/-- For the greedy `\((.*)\)` of the argument regex: everything before
    the last `)` of the list, or `none` when there is no `)`. -/
def beforeLastClose : List Char → Option (List Char)
  | [] => none
  | c :: rest =>
    match beforeLastClose rest with
    | some g => some (c :: g)
    | none => if c = ')' then some [] else none

/-- The captured parameter list of
    `re.search(r"^\s*def\s+\w+\((.*)\)", line)`. -/
def defArgsGroup (line : String) : Option (List Char) :=
  let l := trimLeftL line.data
  match stripLit "def".data l with
  | none => none
  | some r =>
    match wsPlus r with
    | none => none
    | some r2 =>
      let w := r2.takeWhile wordB
      if w = [] then none
      else
        match r2.drop w.length with
        | '(' :: t => beforeLastClose t
        | _ => none

/-- The type alternation `[\w\.]+\[[^:]*\]|[\w\.]+` of the hint regexes:
    the matched type text and the remainder.  The bracketed branch takes
    the last `]` before any `:`; if it cannot match, the plain branch
    succeeds with just the name run. -/
def matchTypeTok (l : List Char) : Option (List Char × List Char) :=
  let run := l.takeWhile wordDotB
  if run = [] then none
  else
    match l.drop run.length with
    | '[' :: rest2 =>
      let span := rest2.takeWhile (fun c => c ≠ ':')
      (match lastIdxOf ']' span with
       | some j => some (run ++ '[' :: (span.take j ++ [']']), rest2.drop (j + 1))
       | none => some (run, '[' :: rest2))
    | rest => some (run, rest)

/-- One attempted match of `(\w+)\s*:\s*(TYPE)\s*` at the current
    position: name, type and remainder. -/
def tryHintAt (l : List Char) : Option (String × String × List Char) :=
  let name := l.takeWhile wordB
  if name = [] then none
  else
    match (l.drop name.length).dropWhile wsB with
    | ':' :: r2 =>
      match matchTypeTok (r2.dropWhile wsB) with
      | some (ty, r3) => some (String.mk name, String.mk ty, r3.dropWhile wsB)
      | none => none
    | _ => none

/-- `re.findall(r"(\w+)\s*:\s*([\w\.]+\[[^:]*\]|[\w\.]+)\s*", s)`:
    non-overlapping matches, scanning left to right. -/
def findHintsF : Nat → List Char → List (String × String)
  | 0, _ => []
  | _, [] => []
  | fuel + 1, c :: rest =>
    match tryHintAt (c :: rest) with
    | some (k, v, rest2) => (k, v) :: findHintsF fuel rest2
    | none => findHintsF fuel rest

/-- All hint pairs found in the parameter list. -/
def findHints (l : List Char) : List (String × String) := findHintsF l.length l

/-- `re.sub(r":\s*([\w\.]+\[[^:]*\]|[\w\.]+)\s*", "", s)`: delete every
    hint occurrence, scanning left to right. -/
def removeHintsF : Nat → List Char → List Char
  | 0, l => l
  | _, [] => []
  | fuel + 1, c :: rest =>
    if c = ':' then
      match matchTypeTok (rest.dropWhile wsB) with
      | some (_, r2) => removeHintsF fuel (r2.dropWhile wsB)
      | none => c :: removeHintsF fuel rest
    else c :: removeHintsF fuel rest

/-- The parameter list with all type hints removed. -/
def removeHints (l : List Char) : List Char := removeHintsF l.length l

/-- The two argument lists built by `parse_arguments`. -/
structure ParsedArgs where
  arguments : List ParsedAttr
  keyword_arguments : List ParsedAttr
deriving DecidableEq

/-- Append an attribute to the keyword list (when the token contained
    `=`) or to the positional list. -/
def pushArg (acc : ParsedArgs) (kw : Bool) (p : ParsedAttr) : ParsedArgs :=
  if kw then { acc with keyword_arguments := acc.keyword_arguments ++ [p] }
  else { acc with arguments := acc.arguments ++ [p] }

/-- The `for index, argument in enumerate(arguments)` loop of
    `parse_arguments`.  The outer `none` models the `KeyError` raised by
    `hints[argument]` when a `*`-prefixed token has no recorded hint. -/
def processToks (hints : Dict) : List String → Nat → ParsedArgs →
    Option (Option ParsedArgs)
  | [], _, acc => some (some acc)
  | t :: rest, idx, acc =>
    if idx = 0 ∧ (t = "self" ∨ t = "cls") then processToks hints rest (idx + 1) acc
    else
      let kw := t.data.contains '='
      if t.data.head? = some '*' then
        let t2 := String.mk (t.data.drop 1)
        match dictGet hints t2 with
        | none => none
        | some h =>
          let hints2 := dictSet hints t2 ("Tuple[" ++ h ++ "]")
          let pr := process_variable t2 hints2
          processToks pr.2 rest (idx + 1) (pushArg acc kw pr.1)
      else
        let pr := process_variable t hints
        processToks pr.2 rest (idx + 1) (pushArg acc kw pr.1)

/-- `parse_arguments(line)`.  Result layering: the outer `none` models a
    raised exception (`AttributeError` when the def regex fails to
    match, or the loop's `KeyError`); `some none` is Python's
    `return None`; `some (some r)` a returned result. -/
def parse_arguments (line : String) : Option (Option ParsedArgs) :=
  match defArgsGroup line with
  | none => none
  | some g =>
    let hints := buildDict (findHints g)
    let stripped := removeHints g
    if stripped = [] then some none
    else processToks hints ((splitByCommasL stripped).map String.mk) 0 ⟨[], []⟩

/- ### PythonParser.parse_returns (parser.py lines 675-709) -/

/-- One line's contribution to
    `re.findall(r"^\s*(return|yield) (\S+)", contents, re.MULTILINE)`:
    the keyword and the first whitespace-free token after the single
    separating space. -/
def lineRet (l : List Char) : Option (String × String) :=
  let t := l.dropWhile wsB
  match stripLit "return ".data t with
  | some r =>
    let tok := r.takeWhile (fun c => !wsB c)
    if tok = [] then none else some ("return", String.mk tok)
  | none =>
    match stripLit "yield ".data t with
    | some r =>
      let tok := r.takeWhile (fun c => !wsB c)
      if tok = [] then none else some ("yield", String.mk tok)
    | none => none

/-- All `(keyword, value)` pairs found by the return/yield regex. -/
def findReturns (contents : String) : List (String × String) :=
  (splitLinesL contents.data).filterMap lineRet

/-- The type alternation of the return-hint regex followed by `\s*:`:
    the bracketed branch needs its closing `]` followed by only
    whitespace and then `:`; the plain branch needs whitespace and `:`
    directly. -/
def arrowType (l : List Char) : Option (List Char) :=
  let run := l.takeWhile wordDotB
  if run = [] then none
  else
    match l.drop run.length with
    | '[' :: rest2 =>
      let span := rest2.takeWhile (fun c => c ≠ ':')
      let after := rest2.drop span.length
      (match lastIdxOf ']' span with
       | some j =>
         if (span.drop (j + 1)).all wsB ∧ after ≠ [] then
           some (run ++ '[' :: (span.take j ++ [']']))
         else none
       | none => none)
    | rest => if (rest.dropWhile wsB).head? = some ':' then some run else none

/-- The part `\s*->\s*(TYPE)\s*:` of the return-hint regex. -/
def arrowTail (l : List Char) : Option (List Char) :=
  match stripLit "->".data (l.dropWhile wsB) with
  | none => none
  | some l2 => arrowType (l2.dropWhile wsB)

/-- For the greedy DOTALL `.*\)` of the return-hint regex: the group of
    the last `)` whose tail matches `\s*->\s*(TYPE)\s*:`. -/
def arrowScan : List Char → Option (List Char)
  | [] => none
  | c :: rest =>
    match arrowScan rest with
    | some g => some g
    | none => if c = ')' then arrowTail rest else none

/-- `re.search(r"^\s*def\s+\w+\(.*\)\s*->\s*([\w\.]+\[[^:]*\]|[\w\.]+)\s*:",
    contents, re.DOTALL)`: the declared return type of a function header
    at the very start of the contents. -/
def hintSearch (contents : String) : Option String :=
  let l := (contents.data).dropWhile wsB
  match stripLit "def".data l with
  | none => none
  | some r =>
    match wsPlus r with
    | none => none
    | some r2 =>
      let w := r2.takeWhile wordB
      if w = [] then none
      else
        match r2.drop w.length with
        | '(' :: t => (arrowScan t).map String.mk
        | _ => none

/-- `parse_returns(contents)`: `None` when no return/yield statement is
    found; else the pair of the keyword with `s` appended and the value
    type (declared `-> Type:` hint, else a guess from the value). -/
def parse_returns (contents : String) : Option (String × Option String) :=
  match findReturns contents with
  | [] => none
  | (kw, tok) :: _ =>
    some (kw ++ "s", pyOrS (hintSearch contents) (guess_type_from_value (some tok)))

/- ### PythonParser.parse_raises (parser.py lines 711-734) -/

/-- One line's contribution to
    `re.findall(r"^\s*(raise) (\w+)", contents, re.MULTILINE)`. -/
def lineRaise (l : List Char) : Option String :=
  match stripLit "raise ".data (l.dropWhile wsB) with
  | some r =>
    let tok := r.takeWhile wordB
    if tok = [] then none else some (String.mk tok)
  | none => none

/-- All exception names found by the raise regex, in order. -/
def findRaises (contents : String) : List String :=
  (splitLinesL contents.data).filterMap lineRaise

/-- `parse_raises(contents)`: `None` when nothing is raised, else the
    distinct exception names in first-seen order. -/
def parse_raises (contents : String) : Option (List String) :=
  match findRaises contents with
  | [] => none
  | ms => some (ms.foldl (fun acc e => if e ∈ acc then acc else acc ++ [e]) [])

/- ### PythonParser.process_function (parser.py lines 736-774) -/

/-- `re.match(r"^\s*(def )", line)`. -/
def defGuard (line : String) : Bool :=
  startsWithL "def ".data (trimLeftL line.data)

/-- `process_function(line, contents)`.  Layering as in
    `parse_arguments`: outer `none` is a propagated exception,
    `some none` is Python's `return None` (not a def line),
    `some (some entries)` the parsed category list. -/
def process_function (line : String) (contents : String) :
    Option (Option (List (String × FieldVal))) :=
  if defGuard line then
    let decorators := parse_decorators line contents
    let e1 := if decorators ≠ [] then [("decorators", FieldVal.strs decorators)] else []
    match parse_arguments line with
    | none => none
    | some argOpt =>
      let e2 := e1 ++
        (match argOpt with
         | some a => [("arguments", FieldVal.args a.arguments a.keyword_arguments)]
         | none => [])
      let e3 := e2 ++
        (match parse_returns contents with
         | some (k, t) => [(k, FieldVal.ret t)]
         | none => [])
      let e4 := e3 ++
        (match parse_raises contents with
         | some rs => [("raises", FieldVal.strs rs)]
         | none => [])
      some (some e4)
  else some none

/- ### PythonParser.parse (parser.py lines 410-439) and the parser
   instance state.  The only instance attribute is `closing_string`;
   none of `parse`'s callees read or write it, which the state-threaded
   embedding makes explicit. -/

/-- The result of `parse`: a category list from one of the
    processors, or the literal empty dict `{}` returned when no
    processor matched. -/
inductive ParseRet where
  | entries (l : List (String × FieldVal))
  | emptyDict
deriving DecidableEq

/-- The stateless computation of `parse(line, contents)`: try module,
    class, then function processing.  The outer `none` is a propagated
    exception. -/
def parseCore (line : Option String) (contents : String) : Option ParseRet :=
  match process_module line contents with
  | some r => some (ParseRet.entries r)
  | none =>
    match line with
    | none => none -- unreachable: process_module handles a missing line
    | some l =>
      match process_class l contents with
      | some r => some (ParseRet.entries r)
      | none =>
        match process_function l contents with
        | none => none
        | some (some r) => some (ParseRet.entries r)
        | some none => some ParseRet.emptyDict

/-- The parser-instance state: the `closing_string` attribute. -/
def PState := String

/-- `parse` as a state-threaded method: the result paired with the
    instance state after the call.  No callee of `parse` touches
    `closing_string`, so the state passes through unchanged. -/
def parseM (st : PState) (line : Option String) (contents : String) :
    Option ParseRet × PState :=
  (parseCore line contents, st)

/- ### PythonParser.is_docstring_closed (parser.py lines 776-833) -/

/-- The triple double-quote marker. -/
def q3d : List Char := ['"', '"', '"']

/-- The triple single-quote marker. -/
def q3s : List Char := [squote, squote, squote]

/-- `set_closing_string(match)`: group 0 of the match is stripped and
    its first three characters must form a triple-quote marker, which
    becomes the new closing string; otherwise the descriptive exception
    is raised (the `.error` case).  A `None` match leaves the state
    unchanged. -/
def set_closing_string (cs : String) (m : Option (List Char)) :
    Except String String :=
  match m with
  | none => Except.ok cs
  | some g =>
    let s := (trimL g).take 3
    if s = q3d then Except.ok (String.mk q3d)
    else if s = q3s then Except.ok (String.mk q3s)
    else Except.error "could not find closing string"

/-- Does the line match `^\s*(""".*"""|\'\'\'.*\'\'\')\s*$` (a docstring
    opened and closed on one line)?  Group 0 is then the whole line. -/
def selfContained (l : List Char) : Bool :=
  let t := trimL l
  6 ≤ t.length &&
    ((startsWithL q3d t && endsWithL q3d t) || (startsWithL q3s t && endsWithL q3s t))

/-- Group 0 of `re.search(r'^\s*("""|\'\'\')', line)`: the leading
    whitespace plus the three-character marker. -/
def leadQuote (l : List Char) : Option (List Char) :=
  let w := l.takeWhile wsB
  let r := l.dropWhile wsB
  if startsWithL q3d r then some (w ++ q3d)
  else if startsWithL q3s r then some (w ++ q3s)
  else none

/-- The forward scan of `is_docstring_closed` over the walked lines:
    skip blank lines and more-indented lines, stop (`.ok none`) below
    the starting indentation, and report closed (`.ok (some ...)`) at a
    same-indentation line starting with a triple-quote marker. -/
def docstringLoop (b : List String) (ind : Int → Nat) (baseInd : Nat)
    (cs : String) : List Nat → Except String (Option (Bool × String))
  | [] => Except.ok none
  | j :: rest =>
    let s := trimRightL (lineText b j).data
    if s.length = 0 then docstringLoop b ind baseInd cs rest
    else
      let ci := ind (lineEnd b j)
      if baseInd < ci then docstringLoop b ind baseInd cs rest
      else if ci < baseInd then Except.ok none
      else
        match leadQuote s with
        | some g =>
          (set_closing_string cs (some g)).map (fun cs2 => some (true, cs2))
        | none => docstringLoop b ind baseInd cs rest

/-- `is_docstring_closed(view, position)` over the buffer model, with
    the view's `indentation_level` supplied as the abstract `ind`.
    Result: the returned Bool paired with the updated `closing_string`
    state; `.error` models the raised exception. -/
def is_docstring_closed (b : List String) (ind : Int → Nat) (p : Int)
    (cs : String) : Except String (Bool × String) :=
  let baseInd := ind p
  let i := lineIdxAt b p
  let line := (lineText b i).data
  if selfContained line then
    (set_closing_string cs (some line)).map (fun cs2 => (false, cs2))
  else
    match docstringLoop b ind baseInd cs (fwdWalkFrom b i) with
    | Except.error e => Except.error e
    | Except.ok (some r) => Except.ok r
    | Except.ok none =>
      (set_closing_string cs (leadQuote line)).map (fun cs2 => (false, cs2))

/- ## Supporting lemmas -/

theorem dropWhile_idem (p : Char → Bool) (l : List Char) :
    (l.dropWhile p).dropWhile p = l.dropWhile p := by
  induction l with
  | nil => rfl
  | cons c cs ih =>
    by_cases h : p c
    · simp [List.dropWhile_cons, h, ih]
    · simp [List.dropWhile_cons, h]

theorem trimLeftL_idem (l : List Char) : trimLeftL (trimLeftL l) = trimLeftL l :=
  dropWhile_idem wsB l

theorem trimRightL_idem (l : List Char) : trimRightL (trimRightL l) = trimRightL l := by
  unfold trimRightL
  rw [List.reverse_reverse, dropWhile_idem]

theorem length_dropWhile_le (p : Char → Bool) (l : List Char) :
    (l.dropWhile p).length ≤ l.length := by
  induction l with
  | nil => simp
  | cons c cs ih =>
    by_cases h : p c
    · rw [List.dropWhile_cons_of_pos h]
      exact Nat.le_trans ih (Nat.le_succ _)
    · rw [List.dropWhile_cons_of_neg h]

theorem trimRightL_append_ws (m : List Char) :
    m = trimRightL m ++ (m.reverse.takeWhile wsB).reverse := by
  conv_lhs => rw [← List.reverse_reverse m,
    ← List.takeWhile_append_dropWhile (p := wsB) (l := m.reverse)]
  rw [List.reverse_append]
  rfl

theorem trimLeftL_trimRightL (m : List Char) (h : trimLeftL m = m) :
    trimLeftL (trimRightL m) = trimRightL m := by
  cases htr : trimRightL m with
  | nil => rfl
  | cons c cs =>
    have hm := trimRightL_append_ws m
    rw [htr] at hm
    have hc : ¬ (wsB c = true) := by
      intro hcc
      have hlen := congrArg List.length h
      rw [hm] at hlen
      simp only [trimLeftL, List.cons_append, List.dropWhile_cons_of_pos hcc] at hlen
      have hle := length_dropWhile_le wsB (cs ++ (m.reverse.takeWhile wsB).reverse)
      simp only [List.length_cons, List.length_append] at hlen hle
      omega
    simp [trimLeftL, List.dropWhile_cons_of_neg hc]

theorem trimL_idem (l : List Char) : trimL (trimL l) = trimL l := by
  unfold trimL
  rw [trimLeftL_trimRightL (trimLeftL l) (trimLeftL_idem l), trimRightL_idem]

/-- The `out` field of the split state only grows by stripped non-empty
    tokens. -/
theorem splitStep_out (st : SplitSt) (c : Char) :
    (splitStep st c).out = st.out ∨
    ((splitStep st c).out = st.out ++ [trimL st.current] ∧ trimL st.current ≠ []) := by
  unfold splitStep
  split_ifs with h1 h2 h3 h4 h5 h6 <;>
    first
      | (left; rfl)
      | (right; exact ⟨rfl, by assumption⟩)
      | (cases closingFor c <;> (left; rfl))

theorem splitFold_out_invariant (cs : List Char) :
    ∀ (st : SplitSt), (∀ t ∈ st.out, trimL t = t ∧ t ≠ []) →
      ∀ t ∈ (cs.foldl splitStep st).out, trimL t = t ∧ t ≠ [] := by
  induction cs with
  | nil => intro st h; exact h
  | cons c rest ih =>
    intro st h
    apply ih
    intro t ht
    rcases splitStep_out st c with hsame | ⟨happ, hne⟩
    · rw [hsame] at ht; exact h t ht
    · rw [happ] at ht
      rcases List.mem_append.mp ht with hl | hr
      · exact h t hl
      · rcases List.mem_singleton.mp hr with rfl
        exact ⟨trimL_idem _, hne⟩

/-- Every token produced by the comma splitter is strip-fixed and
    non-empty. -/
theorem splitByCommasL_tokens (s : List Char) :
    ∀ l ∈ splitByCommasL s, trimL l = l ∧ l ≠ [] := by
  intro l hl
  unfold splitByCommasL at hl
  split at hl
  · simp at hl
  · have hout := splitFold_out_invariant s ⟨[], [], none, false, false⟩ (by simp)
    dsimp only at hl
    split at hl
    · rcases List.mem_append.mp hl with hm | hm
      · exact hout l hm
      · rcases List.mem_singleton.mp hm with rfl
        rename_i hne
        exact ⟨trimL_idem _, hne⟩
    · exact hout l hl

/- ## The claims -/

/-- C2: `split_by_commas` splits only at unenclosed commas —
    `split_by_commas "foo, bar(baz, quux), fwip = \"hey, hi\""` gives
    the three claimed tokens, the empty string gives `[]`,
    `split_by_commas "a,   ,b"` gives `["a", "b"]` — and for every
    input, every returned token is trimmed of surrounding whitespace
    and non-empty. -/
theorem c2_split_by_commas :
    split_by_commas "foo, bar(baz, quux), fwip = \"hey, hi\"" =
      ["foo", "bar(baz, quux)", "fwip = \"hey, hi\""] ∧
    split_by_commas "" = [] ∧
    split_by_commas "a,   ,b" = ["a", "b"] ∧
    (∀ (s : String), ∀ t ∈ split_by_commas s, trimL t.data = t.data ∧ t ≠ "") := by
  refine ⟨rfl, rfl, rfl, ?_⟩
  intro s t ht
  rcases List.mem_map.mp ht with ⟨l, hl, rfl⟩
  rcases splitByCommasL_tokens s.data l hl with ⟨htrim, hne⟩
  refine ⟨htrim, ?_⟩
  intro hcontra
  exact hne (congrArg String.data hcontra)

/-- Witness for C2 at a concrete token of the claim's main example. -/
theorem c2_witness :
    trimL ("bar(baz, quux)" : String).data = ("bar(baz, quux)" : String).data ∧
    ("bar(baz, quux)" : String) ≠ "" :=
  c2_split_by_commas.2.2.2 "foo, bar(baz, quux), fwip = \"hey, hi\""
    "bar(baz, quux)" (by decide)

/-- C7: `guess_type_from_value` yields `none` for absent input and
    otherwise applies its checks in the fixed order — floating-point
    numeral, first-character map, `True`/`False`, `r`/`R`-prefix,
    `u`/`U`-prefix, `lambda ` prefix — falling through to `none`; in
    particular `"42" ↦ number`, `"\"hi\"" ↦ str`, `"True" ↦ bool`,
    `"lambda x: x" ↦ function`. -/
theorem c7_guess_type_from_value :
    guess_type_from_value none = none ∧
    (∀ v : String, is_numeric v = true →
      guess_type_from_value (some v) = some "number") ∧
    (∀ (v : String) (t : String), is_numeric v = false →
      charMapGet v.data.head? = some t → guess_type_from_value (some v) = some t) ∧
    (∀ v : String, is_numeric v = false → charMapGet v.data.head? = none →
      (v = "True" ∨ v = "False") → guess_type_from_value (some v) = some "bool") ∧
    (∀ v : String, is_numeric v = false → charMapGet v.data.head? = none →
      ¬(v = "True" ∨ v = "False") → regexpPre v = true →
      guess_type_from_value (some v) = some "regexp") ∧
    (∀ v : String, is_numeric v = false → charMapGet v.data.head? = none →
      ¬(v = "True" ∨ v = "False") → regexpPre v = false → unicodePre v = true →
      guess_type_from_value (some v) = some "unicode") ∧
    (∀ v : String, is_numeric v = false → charMapGet v.data.head? = none →
      ¬(v = "True" ∨ v = "False") → regexpPre v = false → unicodePre v = false →
      lambdaPre v = true → guess_type_from_value (some v) = some "function") ∧
    (∀ v : String, is_numeric v = false → charMapGet v.data.head? = none →
      ¬(v = "True" ∨ v = "False") → regexpPre v = false → unicodePre v = false →
      lambdaPre v = false → guess_type_from_value (some v) = none) ∧
    guess_type_from_value (some "42") = some "number" ∧
    guess_type_from_value (some "\"hi\"") = some "str" ∧
    guess_type_from_value (some "True") = some "bool" ∧
    guess_type_from_value (some "lambda x: x") = some "function" := by
  refine ⟨rfl, ?_, ?_, ?_, ?_, ?_, ?_, ?_, rfl, rfl, rfl, rfl⟩
  · intro v h1
    simp [guess_type_from_value, h1]
  · intro v t h1 h2
    simp [guess_type_from_value, h1, h2]
  · intro v h1 h2 h3
    simp [guess_type_from_value, h1, h2, if_pos h3]
  · intro v h1 h2 h3 h4
    simp [guess_type_from_value, h1, h2, if_neg h3, h4]
  · intro v h1 h2 h3 h4 h5
    simp [guess_type_from_value, h1, h2, if_neg h3, h4, h5]
  · intro v h1 h2 h3 h4 h5 h6
    simp [guess_type_from_value, h1, h2, if_neg h3, h4, h5, h6]
  · intro v h1 h2 h3 h4 h5 h6
    simp [guess_type_from_value, h1, h2, if_neg h3, h4, h5, h6]

/-- Witness for C7: the `number` branch applied at `"4.2e1"`. -/
theorem c7_witness : guess_type_from_value (some "4.2e1") = some "number" :=
  c7_guess_type_from_value.2.1 "4.2e1" (by decide)

/-- C9: `parse` is a deterministic function of `(line, contents)`: its
    result does not depend on the parser-instance state (the
    `closing_string` attribute), the state is unchanged by the call, and
    running `parse` twice in sequence on the same input gives the same
    result. -/
theorem c9_parse_deterministic :
    ∀ (st st2 : PState) (line : Option String) (contents : String),
      (parseM st line contents).1 = (parseM st2 line contents).1 ∧
      (parseM st line contents).2 = st ∧
      (parseM ((parseM st line contents).2) line contents).1 =
        (parseM st line contents).1 :=
  fun _ _ _ _ => ⟨rfl, rfl, rfl⟩

/-- C10: for every position anywhere on the first physical line of the
    buffer — not only at offset 0 — `get_definition` returns
    `(None, None)`, because the position is first reset to the beginning
    of its line. -/
theorem c10_first_line (b : List String) (p : Int)
    (h : p ≤ ((b.headD "").length : Int)) :
    get_definition b p = (none, none) := by
  have hidx : lineIdxAt b p = 0 := by
    cases b with
    | nil => rfl
    | cons s rest =>
      cases rest with
      | nil => rfl
      | cons a l =>
        simp only [List.headD_cons] at h
        simp [lineIdxAt, h]
  have hbegin : lineBegin b 0 = 0 := by
    cases b <;> rfl
  simp [get_definition, hidx, hbegin]

/-- Witness for C10: a position in the middle of the first line. -/
theorem c10_witness : get_definition ["def f():", "    x"] 3 = (none, none) :=
  c10_first_line ["def f():", "    x"] 3 (by decide)

/-- The argument loop never produces Python's `return None`: it either
    raises or returns the accumulated dict. -/
theorem processToks_ne_ret_none (toks : List String) :
    ∀ (hints : Dict) (idx : Nat) (acc : ParsedArgs),
      processToks hints toks idx acc ≠ some none := by
  induction toks with
  | nil =>
    intro hints idx acc h
    simp [processToks] at h
  | cons t rest ih =>
    intro hints idx acc h
    simp only [processToks] at h
    split at h
    · exact ih _ _ _ h
    · split at h
      · split at h
        · simp at h
        · exact ih _ _ _ h
      · exact ih _ _ _ h

/-- C5 fails on the code: for `def f(self):` the parser does not return
    `None` but a result with two empty argument lists — the emptiness
    test happens before, not after, the `self`/`cls` removal. -/
theorem c5_counterexample :
    parse_arguments "def f(self):" = some (some ⟨[], []⟩) ∧
    some (some (⟨[], []⟩ : ParsedArgs)) ≠ (some none : Option (Option ParsedArgs)) :=
  ⟨rfl, by simp⟩

/-- C5 (amended): when the def-header regex matches, `parse_arguments`
    returns `None` exactly when the parameter list is empty after
    stripping type hints — before any `self`/`cls` removal.  In
    particular `def f():` yields `None` while `def f(self):` yields a
    result with empty positional and keyword lists. -/
theorem c5_parse_arguments_none (line : String) (g : List Char)
    (hg : defArgsGroup line = some g) :
    (parse_arguments line = some none ↔ removeHints g = []) ∧
    parse_arguments "def f():" = some none ∧
    parse_arguments "def f(self):" = some (some ⟨[], []⟩) := by
  refine ⟨?_, rfl, rfl⟩
  simp only [parse_arguments, hg]
  by_cases h : removeHints g = []
  · simp [h]
  · simp only [if_neg h]
    constructor
    · intro hcontra
      exact absurd hcontra (processToks_ne_ret_none _ _ _ _)
    · intro h2
      exact absurd h2 h

/-- Witness for C5 (amended) at `def f(self):`: the stripped parameter
    list `self` is non-empty, so the result is not `None`. -/
theorem c5_witness : ¬ (parse_arguments "def f(self):" = some none) := by
  have h := (c5_parse_arguments_none "def f(self):" "self".data rfl).1
  rw [h]
  decide

/-- C1 fails on the code: on the claim's exact definition line the
    argument parser raises a `KeyError` (modelled by the outer `none`)
    when it reaches `**kwargs`, for which no type hint was recorded; in
    particular it does not return a result with positional list `[a]`
    and keyword list containing `b` and `args`. -/
theorem c1_counterexample :
    parse_arguments "def f(a, b: int = 1, *args: str, **kwargs):" = none ∧
    (none : Option (Option ParsedArgs)) ≠
      some (some ⟨[⟨"a", none, none⟩],
        [⟨"b", some "int", some "1"⟩, ⟨"args", some "Tuple[str]", none⟩]⟩) :=
  ⟨rfl, by simp⟩

/-- `process_variable` applied to a bare `self` or `cls` token does not
    touch the hints dict. -/
theorem process_variable_self_cls_state (t : String) (hints : Dict)
    (h : t = "self" ∨ t = "cls") : (process_variable t hints).2 = hints := by
  rcases h with rfl | rfl <;> rfl

/-- C1 (amended): on `def f(a, b: int = 1, *args: str, **kwargs):` the
    parser raises a `KeyError` at `**kwargs` (no recorded hint); on the
    same line without `**kwargs` it returns positional `[a, args]`
    (where `args` has type `Tuple[str]` but sits in the positional
    list, having no `=`) and keyword `[b]` with type `int`, default `1`.
    A leading `self`/`cls` is excluded exactly when it is the very first
    token: at index 0 it is skipped, at any later index it is processed
    into the positional list. -/
theorem c1_parse_arguments :
    parse_arguments "def f(a, b: int = 1, *args: str, **kwargs):" = none ∧
    parse_arguments "def f(a, b: int = 1, *args: str):" =
      some (some ⟨[⟨"a", none, none⟩, ⟨"args", some "Tuple[str]", none⟩],
        [⟨"b", some "int", some "1"⟩]⟩) ∧
    (∀ (hints : Dict) (t : String) (rest : List String) (acc : ParsedArgs),
      (t = "self" ∨ t = "cls") →
      processToks hints (t :: rest) 0 acc = processToks hints rest 1 acc) ∧
    (∀ (hints : Dict) (t : String) (rest : List String) (acc : ParsedArgs)
      (idx : Nat), 0 < idx → (t = "self" ∨ t = "cls") →
      processToks hints (t :: rest) idx acc =
        processToks hints rest (idx + 1)
          ⟨acc.arguments ++ [(process_variable t hints).1], acc.keyword_arguments⟩) := by
  refine ⟨rfl, rfl, ?_, ?_⟩
  · intro hints t rest acc ht
    simp [processToks, ht]
  · intro hints t rest acc idx hidx ht
    have hskip : ¬(idx = 0 ∧ (t = "self" ∨ t = "cls")) := by
      rintro ⟨rfl, -⟩
      exact absurd hidx (by simp)
    have hidx0 : ¬ idx = 0 := by omega
    rcases ht with rfl | rfl
    · simp +decide [processToks, hidx0, pushArg,
        process_variable_self_cls_state "self" hints (Or.inl rfl)]
    · simp +decide [processToks, hidx0, pushArg,
        process_variable_self_cls_state "cls" hints (Or.inr rfl)]

/-- Witness for C1 (amended): a `self` in first position is skipped. -/
theorem c1_witness :
    processToks [] ["self", "a"] 0 ⟨[], []⟩ = processToks [] ["a"] 1 ⟨[], []⟩ :=
  c1_parse_arguments.2.2.1 [] "self" ["a"] ⟨[], []⟩ (Or.inl rfl)

/-- Spec-modelled comparison definition for C3: the spec's join of the
    visited lines "with a single space between consecutive lines (no
    leading or trailing space)". -/
def spec_join_no_trailing (l : List String) : String := String.intercalate " " l

/-- Right-fold concatenation of a string list. -/
def concatAll (l : List String) : String := l.foldr (fun a b => a ++ b) ""

theorem concatAll_append (xs ys : List String) :
    concatAll (xs ++ ys) = concatAll xs ++ concatAll ys := by
  induction xs with
  | nil => simp [concatAll]
  | cons x rest ih =>
    simp only [concatAll, List.foldr_cons, List.cons_append] at *
    rw [ih, String.append_assoc]

/-- Closed form of the accumulator loop of `get_definition`: it builds
    the concatenation, in buffer order, of each visited line's stripped
    text followed by one space, and counts the visited lines. -/
theorem getdef_fold (b : List String) (idxs : List Nat) :
    ∀ (a : String) (k : Nat),
      idxs.foldl
        (fun (acc : String × Nat) i => (trimS (lineText b i) ++ " " ++ acc.1, acc.2 + 1))
        (a, k) =
      (concatAll ((idxs.map (fun j => trimS (lineText b j) ++ " ")).reverse) ++ a,
       k + idxs.length) := by
  induction idxs with
  | nil =>
    intro a k
    simp [concatAll]
  | cons i rest ih =>
    intro a k
    simp only [List.foldl_cons, List.map_cons, List.reverse_cons, List.length_cons]
    rw [ih, concatAll_append]
    refine Prod.ext ?_ ?_
    · show concatAll _ ++ (trimS (lineText b i) ++ " " ++ a) =
        concatAll _ ++ concatAll [trimS (lineText b i) ++ " "] ++ a
      simp [concatAll, String.append_assoc]
    · show k + 1 + rest.length = k + (rest.length + 1)
      omega

/-- C3 fails on the code: for the buffer `["def f():", "    x"]` with
    the position on the second line, the walk visits exactly the
    definition line, but the returned string carries a trailing space,
    so it is not the spec's no-trailing-space join. -/
theorem c3_counterexample :
    get_definition ["def f():", "    x"] 10 = (some "def f(): ", some 1) ∧
    (backWalkFrom ["def f():", "    x"]
        (lineIdxAt ["def f():", "    x"] 10)).map
      (fun j => trimS (lineText ["def f():", "    x"] j)) = ["def f():"] ∧
    ("def f(): " : String) ≠ spec_join_no_trailing ["def f():"] := by
  refine ⟨rfl, rfl, ?_⟩
  decide

/-- C3 (amended): if the position, reset to the beginning of its line,
    is buffer offset 0, `get_definition` returns `(None, None)`;
    otherwise it returns the concatenation, over the visited lines in
    buffer order, of each trimmed text followed by one space — i.e. the
    claimed join plus a single trailing space, a blank visited line
    contributing just a space — together with the count of visited
    lines. -/
theorem c3_get_definition (b : List String) (p : Int) :
    (lineBegin b (lineIdxAt b p) = 0 → get_definition b p = (none, none)) ∧
    (lineBegin b (lineIdxAt b p) ≠ 0 →
      get_definition b p =
        (some (concatAll (((backWalkFrom b (lineIdxAt b p)).map
            (fun j => trimS (lineText b j) ++ " ")).reverse)),
         some (backWalkFrom b (lineIdxAt b p)).length)) := by
  constructor
  · intro h
    simp [get_definition, h]
  · intro h
    simp [get_definition, h, getdef_fold]

/-- Witness for C3 (amended) on a concrete two-line buffer. -/
theorem c3_witness : get_definition ["def f():", "    x"] 9 = (some "def f(): ", some 1) := by
  have h := (c3_get_definition ["def f():", "    x"] 9).2 (by decide)
  rw [h]
  rfl

theorem lineBegin_nil (i : Nat) : lineBegin [] i = 0 := by
  cases i <;> rfl

theorem bufSize_nonneg (b : List String) : 0 ≤ bufSize b := by
  induction b with
  | nil => simp [bufSize]
  | cons s rest ih =>
    cases rest with
    | nil => simp [bufSize]
    | cons a l =>
      have hs : (0 : Int) ≤ (s.length : Int) := Int.natCast_nonneg _
      show 0 ≤ (s.length : Int) + 1 + bufSize (a :: l)
      omega

/-- The beginning of the line containing any position lies inside the
    buffer. -/
theorem lineBegin_le_bufSize (b : List String) (p : Int) :
    lineBegin b (lineIdxAt b p) ≤ bufSize b := by
  induction b generalizing p with
  | nil => simp [lineIdxAt, lineBegin, bufSize]
  | cons s rest ih =>
    cases rest with
    | nil => simp [lineIdxAt, lineBegin, bufSize]
    | cons a l =>
      simp only [lineIdxAt]
      by_cases h : p ≤ (s.length : Int)
      · rw [if_pos h]
        show lineBegin (s :: a :: l) 0 ≤ _
        have := bufSize_nonneg (s :: a :: l)
        simp only [lineBegin]
        omega
      · rw [if_neg h]
        show (s.length : Int) + 1 + lineBegin (a :: l) (lineIdxAt (a :: l) _) ≤
          (s.length : Int) + 1 + bufSize (a :: l)
        have := ih (p - (s.length : Int) - 1)
        omega

/-- A reverse walk whose starting line begins at offset 1 stops before
    yielding anything (`next_line = 0` fails the bounds check). -/
theorem backWalkAux_nil_of_begin_one (b : List String) (fuel cur : Nat)
    (h : lineBegin b cur = 1) : backWalkAux b fuel cur = [] := by
  cases fuel with
  | zero => rfl
  | succ m =>
    simp only [backWalkAux, h]
    norm_num

/-- A reverse walk whose starting line begins at offset 2 or later
    yields at least one line. -/
theorem backWalkAux_ne_nil (b : List String) (fuel cur : Nat)
    (h2 : 2 ≤ lineBegin b cur) (hle : lineBegin b cur ≤ bufSize b)
    (hf : 0 < fuel) : backWalkAux b fuel cur ≠ [] := by
  cases fuel with
  | zero => omega
  | succ m =>
    simp only [backWalkAux]
    have hcond : 0 < lineBegin b cur - 1 ∧ lineBegin b cur - 1 < bufSize b := by
      omega
    rw [if_pos hcond]
    split <;> simp

/-- C4 fails on the code: on a buffer whose first line is empty, a
    position on the second line takes the non-early-return path yet
    visits no line, returning the non-`None` string `""` with count 0. -/
theorem c4_counterexample :
    ¬ (∀ (b : List String) (p : Int) (s : String) (k : Option Nat),
        get_definition b p = (some s, k) → ∃ m, k = some m ∧ 1 ≤ m) := by
  intro h
  rcases h ["", "abc"] 1 "" (some 0) rfl with ⟨m, hm, h1⟩
  simp only [Option.some.injEq] at hm
  omega

/-- C4 (amended): when `get_definition` takes the non-early-return path
    the count equals the number of visited lines, which is at least 1
    whenever the reset position is at offset 2 or later; in the one
    remaining case — the reset position is offset 1, i.e. the buffer's
    first line is empty and the position sits on the second line — it
    returns `(Some "", Some 0)`. -/
theorem c4_count (b : List String) (p : Int) :
    (2 ≤ lineBegin b (lineIdxAt b p) →
      ∃ s k, get_definition b p = (some s, some k) ∧ 1 ≤ k) ∧
    (lineBegin b (lineIdxAt b p) = 1 → get_definition b p = (some "", some 0)) := by
  constructor
  · intro h2
    have hfuel : 0 < b.length := by
      rcases b with _ | ⟨s, rest⟩
      · rw [lineBegin_nil] at h2
        omega
      · simp
    have hne := backWalkAux_ne_nil b b.length (lineIdxAt b p) h2
      (lineBegin_le_bufSize b p) hfuel
    have h0 : lineBegin b (lineIdxAt b p) ≠ 0 := by omega
    refine ⟨concatAll (((backWalkFrom b (lineIdxAt b p)).map
        (fun j => trimS (lineText b j) ++ " ")).reverse),
      (backWalkFrom b (lineIdxAt b p)).length, ?_, ?_⟩
    · simp [get_definition, h0, getdef_fold]
    · have := List.length_pos.mpr hne
      unfold backWalkFrom
      omega
  · intro h1
    have h0 : lineBegin b (lineIdxAt b p) ≠ 0 := by omega
    have hw : backWalkFrom b (lineIdxAt b p) = [] :=
      backWalkAux_nil_of_begin_one b b.length (lineIdxAt b p) h1
    simp [get_definition, h0, hw]

/-- Witness for C4 (amended): a buffer where the definition line is
    visited, so the count is 1. -/
theorem c4_witness : ∃ s k, get_definition ["a", "b"] 2 = (some s, some k) ∧ 1 ≤ k :=
  (c4_count ["a", "b"] 2).1 (by decide)

/-- C6: for any definition line and block text with no return, yield or
    raise statement (no line matches the return/yield or raise regex),
    `parse_returns` and `parse_raises` both give `None`, and any
    ParseResult produced — by `process_function` or by the full
    dispatcher — contains no `returns`, `yields` or `raises` entry at
    all. -/
theorem c6_no_returns_raises (contents : String)
    (h : ∀ l ∈ splitLinesL contents.data, lineRet l = none ∧ lineRaise l = none) :
    parse_returns contents = none ∧ parse_raises contents = none ∧
    (∀ (line : String) (l : List (String × FieldVal)),
      process_function line contents = some (some l) →
      ∀ e ∈ l, e.1 ≠ "returns" ∧ e.1 ≠ "yields" ∧ e.1 ≠ "raises") ∧
    (∀ (lineOpt : Option String) (l : List (String × FieldVal)),
      parseCore lineOpt contents = some (ParseRet.entries l) →
      ∀ e ∈ l, e.1 ≠ "returns" ∧ e.1 ≠ "yields" ∧ e.1 ≠ "raises") := by
  have hret : findReturns contents = [] :=
    List.filterMap_eq_nil_iff.mpr (fun a ha => (h a ha).1)
  have hrai : findRaises contents = [] :=
    List.filterMap_eq_nil_iff.mpr (fun a ha => (h a ha).2)
  have hpr : parse_returns contents = none := by
    simp [parse_returns, hret]
  have hpz : parse_raises contents = none := by
    simp [parse_raises, hrai]
  have hpf : ∀ (line : String) (l : List (String × FieldVal)),
      process_function line contents = some (some l) →
      ∀ e ∈ l, e.1 ≠ "returns" ∧ e.1 ≠ "yields" ∧ e.1 ≠ "raises" := by
    intro line l hl e he
    unfold process_function at hl
    split at hl
    · rcases hpa : parse_arguments line with _ | argOpt <;> rw [hpa] at hl
      · simp at hl
      · simp only [hpr, hpz, List.append_nil, Option.some.injEq] at hl
        rw [← hl] at he
        rcases List.mem_append.mp he with hm | hm
        · split at hm
          · rcases List.mem_singleton.mp hm with rfl
            refine ⟨by simp, by simp, by simp⟩
          · simp at hm
        · rcases argOpt with _ | a
          · simp at hm
          · rcases List.mem_singleton.mp hm with rfl
            refine ⟨by simp, by simp, by simp⟩
    · simp at hl
  refine ⟨hpr, hpz, hpf, ?_⟩
  intro lineOpt l hl e he
  cases lineOpt with
  | none =>
    simp only [parseCore, process_module] at hl
    rcases hv : parse_variables contents with _ | vs <;> rw [hv] at hl <;>
      simp only [Option.some.injEq, ParseRet.entries.injEq] at hl <;> rw [← hl] at he
    · simp at he
    · rcases List.mem_singleton.mp he with rfl
      refine ⟨by simp, by simp, by simp⟩
  | some l0 =>
    simp only [parseCore, process_module] at hl
    rcases hc : process_class l0 contents with _ | r <;> rw [hc] at hl
    · rcases hf2 : process_function l0 contents with _ | o <;> rw [hf2] at hl
      · simp at hl
      · rcases o with _ | r2
        · simp at hl
        · simp only [Option.some.injEq, ParseRet.entries.injEq] at hl
          rw [← hl] at he
          exact hpf l0 r2 hf2 e he
    · simp only [Option.some.injEq, ParseRet.entries.injEq] at hl
      rw [← hl] at he
      unfold process_class at hc
      split at hc
      · simp only [Option.some.injEq] at hc
        rw [← hc] at he
        rcases List.mem_append.mp he with hm | hm
        · split at hm
          · rcases List.mem_singleton.mp hm with rfl
            refine ⟨by simp, by simp, by simp⟩
          · simp at hm
        · split at hm
          · rcases List.mem_singleton.mp hm with rfl
            refine ⟨by simp, by simp, by simp⟩
          · simp at hm
      · simp at hc

/-- Witness for C6 on a function body with no return/yield/raise. -/
theorem c6_witness :
    parse_returns "def f(a):\n    pass" = none ∧
    parse_raises "def f(a):\n    pass" = none :=
  ⟨(c6_no_returns_raises "def f(a):\n    pass" (by decide)).1,
   (c6_no_returns_raises "def f(a):\n    pass" (by decide)).2.1⟩

theorem dropWhile_append_of_all_pos (p : Char → Bool) (w q : List Char)
    (h : ∀ c ∈ w, p c = true) :
    (w ++ q).dropWhile p = q.dropWhile p := by
  induction w with
  | nil => rfl
  | cons c cs ih =>
    rw [List.cons_append, List.dropWhile_cons_of_pos (h c (by simp))]
    exact ih (fun x hx => h x (by simp [hx]))

/-- `set_closing_string` succeeds on any group whose stripped text
    begins with a triple-quote marker preceded only by whitespace. -/
theorem set_closing_string_ok_of_lead (cs : String) (w q : List Char)
    (hw : ∀ c ∈ w, wsB c = true) (hq : q = q3d ∨ q = q3s) :
    ∃ r, set_closing_string cs (some (w ++ q)) = Except.ok r := by
  have htrim : trimL (w ++ q) = q := by
    unfold trimL trimLeftL
    rw [dropWhile_append_of_all_pos wsB w q hw]
    rcases hq with rfl | rfl <;> decide
  rcases hq with rfl | rfl
  · exact ⟨String.mk q3d, by simp only [set_closing_string, htrim]; rfl⟩
  · exact ⟨String.mk q3s, by simp only [set_closing_string, htrim]; rfl⟩

theorem set_closing_string_ok_of_self (cs : String) (l : List Char)
    (h : selfContained l = true) :
    ∃ r, set_closing_string cs (some l) = Except.ok r := by
  simp only [selfContained, Bool.and_eq_true, Bool.or_eq_true, startsWithL] at h
  rcases h with ⟨-, ⟨h1, -⟩ | ⟨h1, -⟩⟩
  · have ht : List.take 3 (trimL l) = q3d := by simpa using h1
    refine ⟨String.mk q3d, ?_⟩
    simp [set_closing_string, ht]
  · have ht : List.take 3 (trimL l) = q3s := by simpa using h1
    have hne : List.take 3 (trimL l) ≠ q3d := by
      rw [ht]; decide
    refine ⟨String.mk q3s, ?_⟩
    simp only [set_closing_string, ht, hne]
    simp
    intro hcontra
    exact absurd hcontra (by decide)

theorem leadQuote_ok (cs : String) (s g : List Char)
    (h : leadQuote s = some g) :
    ∃ r, set_closing_string cs (some g) = Except.ok r := by
  unfold leadQuote at h
  dsimp only at h
  split_ifs at h with h1 h2
  · rcases Option.some.inj h with rfl
    exact set_closing_string_ok_of_lead cs _ q3d
      (fun c hc => List.mem_takeWhile_imp hc) (Or.inl rfl)
  · rcases Option.some.inj h with rfl
    exact set_closing_string_ok_of_lead cs _ q3s
      (fun c hc => List.mem_takeWhile_imp hc) (Or.inr rfl)

/-- The forward scan of the closing detector never raises. -/
theorem docstringLoop_ok (b : List String) (ind : Int → Nat) (baseInd : Nat)
    (walk : List Nat) : ∀ (cs : String),
    ∃ r, docstringLoop b ind baseInd cs walk = Except.ok r := by
  induction walk with
  | nil => intro cs; exact ⟨none, rfl⟩
  | cons j rest ih =>
    intro cs
    unfold docstringLoop
    dsimp only
    split_ifs with h1 h2 h3
    · exact ih cs
    · exact ih cs
    · exact ⟨none, rfl⟩
    · rcases hq : leadQuote (trimRightL (lineText b j).data) with _ | g
      · simp only [hq]
        exact ih cs
      · rcases leadQuote_ok cs _ g hq with ⟨r, hr⟩
        simp only [hq, hr, Except.map]
        exact ⟨some (true, r), rfl⟩

/-- C8: `is_docstring_closed` never raises the quote-style-extraction
    error: for every buffer, indentation oracle, position and prior
    closing string, every match it passes to `set_closing_string`
    starts, after stripping, with `"""` or `'''`, so the error branch is
    unreachable and the result is always `.ok`. -/
theorem c8_is_docstring_closed_total (b : List String) (ind : Int → Nat)
    (p : Int) (cs : String) :
    ∃ r, is_docstring_closed b ind p cs = Except.ok r := by
  unfold is_docstring_closed
  dsimp only
  split_ifs with h1
  · rcases set_closing_string_ok_of_self cs _ h1 with ⟨r, hr⟩
    simp only [hr, Except.map]
    exact ⟨(false, r), rfl⟩
  · rcases docstringLoop_ok b ind (ind p) (fwdWalkFrom b (lineIdxAt b p)) cs with
      ⟨res, hres⟩
    rw [hres]
    rcases res with _ | rr
    · rcases hq : leadQuote (lineText b (lineIdxAt b p)).data with _ | g
      · exact ⟨(false, cs), rfl⟩
      · rcases leadQuote_ok cs _ g hq with ⟨r, hr⟩
        show ∃ s, Except.map (fun cs2 => (false, cs2)) (set_closing_string cs (some g)) =
          Except.ok s
        rw [hr]
        exact ⟨(false, r), rfl⟩
    · exact ⟨rr, rfl⟩

end DocBlockr
